import Mathlib

/-!
Verification development for the DnD-Rules-AI repository.

Shallow embedding of the document-retrieval subsystem
(`documents/utils.py`, `documents/services.py`, `documents/vector_store.py`),
the insight pipeline (`recorder/views.py`, `prompts/insight_prompts.py`) and
the document model (`documents/models.py`).  Text is modelled as `List Char`
(Python string indexing), machine floats as `ℚ`, database tables as Lean
lists in creation order, and calls to external services (OpenAI, ChromaDB,
FAISS, the LLM agent) as explicit oracle arguments or small models of the
library's documented semantics.
-/

/-! ### `documents/utils.py`, `chunk_text` (lines 78-122) -/

/-- Python's `\s` character class restricted to ASCII, as produced by
`re.sub(r'\s+', ' ', text)` on the texts this repo extracts. -/
def pyIsSpace (c : Char) : Bool :=
  c = ' ' || c = '\t' || c = '\n' || c = '\r' || c = '\x0b' || c = '\x0c'

/-- Model of `re.sub(r'\s+', ' ', text)`: every maximal run of whitespace
becomes a single space. -/
def collapseWS : List Char → List Char
  | [] => []
  | [c] => if pyIsSpace c then [' '] else [c]
  | c :: d :: cs =>
    if pyIsSpace c && pyIsSpace d then collapseWS (d :: cs)
    else (if pyIsSpace c then ' ' else c) :: collapseWS (d :: cs)

/-- Model of Python `str.strip()`: drop leading and trailing whitespace. -/
def pyStrip (l : List Char) : List Char :=
  ((l.dropWhile pyIsSpace).reverse.dropWhile pyIsSpace).reverse

/-- The cleaned text of `chunk_text` (line 94):
`re.sub(r'\s+', ' ', text).strip()`. -/
def cleanText (t : List Char) : List Char :=
  pyStrip (collapseWS t)

/-- `rfindAux p n` is the largest index `i < n` with `p i`, if any;
the kernel of Python's `str.rfind`. -/
def rfindAux (p : Nat → Bool) : Nat → Option Nat
  | 0 => none
  | n + 1 => if p n then some n else rfindAux p n

/-- Model of `text.rfind('. ', start, end)` (line 107): the largest `i` with
`start ≤ i`, `i + 2 ≤ end` and `text[i] = '.'`, `text[i+1] = ' '`
(`none` for Python's `-1`). -/
def rfindDotSpace (t : List Char) (s e : Nat) : Option Nat :=
  rfindAux (fun i => decide (s ≤ i) && decide (i + 2 ≤ e) &&
    t.getD i ' ' = '.' && t.getD (i + 1) '.' = ' ') e

/-- Model of `text.rfind(' ', start, end)` (line 112). -/
def rfindSpace (t : List Char) (s e : Nat) : Option Nat :=
  rfindAux (fun i => decide (s ≤ i) && decide (i + 1 ≤ e) && t.getD i '.' = ' ') e

/-- The window-end computation of `chunk_text` (lines 102-114): tentative end
`min (start + chunk_size) len`, snapped back to a sentence or space break
past the midpoint when the window does not reach the end of the text. -/
def chunkEnd (t : List Char) (cs s : Nat) : Nat :=
  let e0 := min (s + cs) t.length
  if e0 < t.length then
    match rfindDotSpace t s e0 with
    | some sb =>
      if s + cs / 2 < sb then sb + 1
      else
        match rfindSpace t s e0 with
        | some sp => if s + cs / 2 < sp then sp else e0
        | none => e0
    | none =>
      match rfindSpace t s e0 with
      | some sp => if s + cs / 2 < sp then sp else e0
      | none => e0
  else e0

/-- The `while start < len(text)` loop of `chunk_text` (lines 101-120),
with explicit fuel; `none` means the fuel ran out (the Python loop did not
terminate within that many iterations). -/
def chunkLoop (t : List Char) (cs ov : Nat) : Nat → Nat → Option (List (List Char))
  | 0, _ => none
  | fuel + 1, s =>
    if s < t.length then
      let e := chunkEnd t cs s
      match chunkLoop t cs ov fuel (if e < t.length then e - ov else t.length) with
      | none => none
      | some rest => some (pyStrip ((t.drop s).take (e - s)) :: rest)
    else some []

/-- `chunk_text(text, chunk_size, overlap)` (lines 78-122).  The loop runs on
the cleaned text; `cleaned.length + 1` iterations are enough whenever the
loop terminates at all, since the start index never decreases productively
past the text. -/
def chunk_text (t : List Char) (cs ov : Nat) : Option (List (List Char)) :=
  if t.isEmpty then some []
  else chunkLoop (cleanText t) cs ov ((cleanText t).length + 1) 0

/-- The `(start, end)` windows generated by the `chunk_text` loop; same
control flow as `chunkLoop`, recording the window bounds instead of the
stripped slices. -/
def chunkWindows (t : List Char) (cs ov : Nat) : Nat → Nat → Option (List (Nat × Nat))
  | 0, _ => none
  | fuel + 1, s =>
    if s < t.length then
      let e := chunkEnd t cs s
      match chunkWindows t cs ov fuel (if e < t.length then e - ov else t.length) with
      | none => none
      | some rest => some ((s, e) :: rest)
    else some []

/-- `s` occurs as a contiguous character sequence of `t`. -/
def isSubstringOf (s t : List Char) : Prop :=
  ∃ pre post, t = pre ++ s ++ post

/-- The boundary-snapping rule of claim C3, stated over the window
`[start, start + chunk_size)`: snap to the last `'. '` past the midpoint,
else to the last `' '` past the midpoint, else keep `start + chunk_size`. -/
def snapSpec (t : List Char) (cs s e : Nat) : Prop :=
  (∃ sb, rfindDotSpace t s (s + cs) = some sb ∧ s + cs / 2 < sb ∧ e = sb + 1) ∨
  ((∀ sb, rfindDotSpace t s (s + cs) = some sb → sb ≤ s + cs / 2) ∧
    ((∃ sp, rfindSpace t s (s + cs) = some sp ∧ s + cs / 2 < sp ∧ e = sp) ∨
      ((∀ sp, rfindSpace t s (s + cs) = some sp → sp ≤ s + cs / 2) ∧ e = s + cs)))

/-! ### Support lemmas for the chunking claims -/

theorem rfindAux_some {p : Nat → Bool} :
    ∀ {n i : Nat}, rfindAux p n = some i → p i = true ∧ i < n := by
  intro n
  induction n with
  | zero => intro i h; simp [rfindAux] at h
  | succ n ih =>
    intro i h
    by_cases hp : p n
    · rw [rfindAux, if_pos hp] at h
      cases h
      exact ⟨hp, Nat.lt_succ_self n⟩
    · rw [rfindAux, if_neg hp] at h
      obtain ⟨h1, h2⟩ := ih h
      exact ⟨h1, Nat.lt_succ_of_lt h2⟩

theorem rfindDotSpace_some {t : List Char} {s e i : Nat}
    (h : rfindDotSpace t s e = some i) : s ≤ i ∧ i + 2 ≤ e := by
  obtain ⟨h1, _⟩ := rfindAux_some h
  simp only [Bool.and_eq_true, decide_eq_true_eq] at h1
  exact ⟨h1.1.1.1, h1.1.1.2⟩

theorem rfindSpace_some {t : List Char} {s e i : Nat}
    (h : rfindSpace t s e = some i) : s ≤ i ∧ i + 1 ≤ e := by
  obtain ⟨h1, _⟩ := rfindAux_some h
  simp only [Bool.and_eq_true, decide_eq_true_eq] at h1
  exact ⟨h1.1.1, h1.1.2⟩

/-- Case analysis of `chunkEnd`: the window end is either the tentative end
`min (start + chunk_size) len`, a sentence break past the midpoint plus one,
or a space break past the midpoint. -/
theorem chunkEnd_spec (t : List Char) (cs s : Nat) :
    chunkEnd t cs s = min (s + cs) t.length ∨
    (min (s + cs) t.length < t.length ∧
      ∃ sb, rfindDotSpace t s (min (s + cs) t.length) = some sb ∧
        s + cs / 2 < sb ∧ chunkEnd t cs s = sb + 1) ∨
    (min (s + cs) t.length < t.length ∧
      ∃ sp, rfindSpace t s (min (s + cs) t.length) = some sp ∧
        s + cs / 2 < sp ∧ chunkEnd t cs s = sp) := by
  unfold chunkEnd
  dsimp only
  split
  · rename_i hlt
    split
    · rename_i sb hsb
      split
      · rename_i hmid
        right; left
        exact ⟨hlt, sb, hsb, hmid, rfl⟩
      · split
        · rename_i sp hsp
          split
          · rename_i hmid2
            right; right
            exact ⟨hlt, sp, hsp, hmid2, rfl⟩
          · left; rfl
        · left; rfl
    · rename_i hnb
      split
      · rename_i sp hsp
        split
        · rename_i hmid2
          right; right
          exact ⟨hlt, sp, hsp, hmid2, rfl⟩
        · left; rfl
      · left; rfl
  · left; rfl

theorem chunkEnd_le_len (t : List Char) (cs s : Nat) :
    chunkEnd t cs s ≤ t.length := by
  rcases chunkEnd_spec t cs s with h | ⟨hlt, sb, hsb, hmid, h⟩ | ⟨hlt, sp, hsp, hmid, h⟩
  · rw [h]; exact Nat.min_le_right _ _
  · have := (rfindDotSpace_some hsb).2; omega
  · have := (rfindSpace_some hsp).2; omega

theorem chunkEnd_le_add (t : List Char) (cs s : Nat) :
    chunkEnd t cs s ≤ s + cs := by
  rcases chunkEnd_spec t cs s with h | ⟨hlt, sb, hsb, hmid, h⟩ | ⟨hlt, sp, hsp, hmid, h⟩
  · rw [h]; exact Nat.min_le_left _ _
  · have h2 := (rfindDotSpace_some hsb).2
    have h3 : min (s + cs) t.length ≤ s + cs := Nat.min_le_left _ _
    omega
  · have h2 := (rfindSpace_some hsp).2
    have h3 : min (s + cs) t.length ≤ s + cs := Nat.min_le_left _ _
    omega

theorem chunkEnd_gt_mid {t : List Char} {cs s : Nat} (hcs : cs ≠ 0)
    (h : chunkEnd t cs s < t.length) : s + cs / 2 < chunkEnd t cs s := by
  have hdiv : cs / 2 < cs := Nat.div_lt_self (Nat.pos_of_ne_zero hcs) one_lt_two
  rcases chunkEnd_spec t cs s with heq | ⟨hlt, sb, hsb, hmid, heq⟩ | ⟨hlt, sp, hsp, hmid, heq⟩
  · rw [heq] at h ⊢
    have : min (s + cs) t.length = s + cs := by omega
    omega
  · omega
  · omega

theorem chunkLoop_eq_windows (t : List Char) (cs ov : Nat) :
    ∀ fuel s, chunkLoop t cs ov fuel s =
      (chunkWindows t cs ov fuel s).map
        (List.map (fun w => pyStrip ((t.drop w.1).take (w.2 - w.1)))) := by
  intro fuel
  induction fuel with
  | zero => intro s; rfl
  | succ fuel ih =>
    intro s
    simp only [chunkLoop, chunkWindows]
    by_cases hs : s < t.length
    · rw [if_pos hs, if_pos hs]
      cases hw : chunkWindows t cs ov fuel
          (if chunkEnd t cs s < t.length then chunkEnd t cs s - ov else t.length) with
      | none => rw [ih, hw]; rfl
      | some rest => rw [ih, hw]; rfl
    · rw [if_neg hs, if_neg hs]; rfl

theorem chunkWindows_head {t : List Char} {cs ov : Nat} {fuel s : Nat} {w : Nat × Nat}
    {ws : List (Nat × Nat)} (h : chunkWindows t cs ov fuel s = some (w :: ws)) :
    w.1 = s ∧ w.2 = chunkEnd t cs s := by
  cases fuel with
  | zero => simp [chunkWindows] at h
  | succ fuel =>
    simp only [chunkWindows] at h
    by_cases hs : s < t.length
    · rw [if_pos hs] at h
      cases hw : chunkWindows t cs ov fuel
          (if chunkEnd t cs s < t.length then chunkEnd t cs s - ov else t.length) with
      | none => rw [hw] at h; simp at h
      | some rest =>
        rw [hw] at h
        simp only [Option.some.injEq, List.cons.injEq] at h
        rw [← h.1]
        exact ⟨rfl, rfl⟩
    · rw [if_neg hs] at h
      simp at h

theorem chunkWindows_stop {t : List Char} {cs ov : Nat} {fuel s : Nat}
    {ws : List (Nat × Nat)} (h : chunkWindows t cs ov fuel s = some ws)
    (hs : ¬ s < t.length) : ws = [] := by
  cases fuel with
  | zero => simp [chunkWindows] at h
  | succ fuel =>
    simp only [chunkWindows, if_neg hs] at h
    exact (Option.some.injEq _ _ ▸ h).symm

theorem chunkWindows_sound (t : List Char) (cs ov : Nat) :
    ∀ fuel s ws, chunkWindows t cs ov fuel s = some ws →
      (∀ w ∈ ws, w.1 < t.length ∧ w.2 = chunkEnd t cs w.1) ∧
      List.Chain' (fun w w' : Nat × Nat => w.2 < t.length ∧ w'.1 = w.2 - ov) ws := by
  intro fuel
  induction fuel with
  | zero => intro s ws h; simp [chunkWindows] at h
  | succ fuel ih =>
    intro s ws h
    simp only [chunkWindows] at h
    by_cases hs : s < t.length
    · rw [if_pos hs] at h
      cases hw : chunkWindows t cs ov fuel
          (if chunkEnd t cs s < t.length then chunkEnd t cs s - ov else t.length) with
      | none => rw [hw] at h; simp at h
      | some rest =>
        rw [hw] at h
        obtain ⟨hmem, hchain⟩ := ih _ _ hw
        cases h
        constructor
        · intro w hwmem
          rcases List.mem_cons.mp hwmem with rfl | hwr
          · exact ⟨hs, rfl⟩
          · exact hmem w hwr
        · rw [List.chain'_cons']
          refine ⟨?_, hchain⟩
          intro y hy
          cases rest with
          | nil => simp at hy
          | cons r rs =>
            simp only [List.head?_cons, Option.mem_def, Option.some.injEq] at hy
            subst hy
            have hr := chunkWindows_head hw
            by_cases he : chunkEnd t cs s < t.length
            · rw [if_pos he] at hr
              exact ⟨he, hr.1⟩
            · exfalso
              rw [if_neg he] at hw
              have : r :: rs = [] := chunkWindows_stop hw (lt_irrefl _)
              simp at this
    · rw [if_neg hs] at h
      cases h
      exact ⟨by simp, by simp⟩

theorem chunkWindows_total {cs ov : Nat} (h2 : 2 * ov < cs) (t : List Char) :
    ∀ fuel s, t.length - s < fuel → ∃ ws, chunkWindows t cs ov fuel s = some ws := by
  intro fuel
  induction fuel with
  | zero => intro s h; omega
  | succ fuel ih =>
    intro s hfuel
    by_cases hs : s < t.length
    · have hcs : cs ≠ 0 := by omega
      have hov : ov ≤ cs / 2 := by omega
      have hnext : t.length - (if chunkEnd t cs s < t.length
          then chunkEnd t cs s - ov else t.length) < fuel := by
        by_cases he : chunkEnd t cs s < t.length
        · have := chunkEnd_gt_mid hcs he
          rw [if_pos he]
          omega
        · rw [if_neg he]
          omega
      obtain ⟨ws, hws⟩ := ih _ hnext
      refine ⟨(s, chunkEnd t cs s) :: ws, ?_⟩
      simp only [chunkWindows, if_pos hs, hws]
    · exact ⟨[], by simp only [chunkWindows, if_neg hs]⟩

theorem isSubstringOf_trans {a b c : List Char}
    (h1 : isSubstringOf a b) (h2 : isSubstringOf b c) : isSubstringOf a c := by
  obtain ⟨p1, q1, rfl⟩ := h1
  obtain ⟨p2, q2, rfl⟩ := h2
  exact ⟨p2 ++ p1, q1 ++ q2, by simp⟩

theorem dropWhile_isSubstringOf (p : Char → Bool) (l : List Char) :
    isSubstringOf (l.dropWhile p) l := by
  have hsuf : l.dropWhile p <:+ l := List.dropWhile_suffix p
  obtain ⟨u, hu⟩ := hsuf
  exact ⟨u, [], by rw [List.append_nil]; exact hu.symm⟩

theorem pyStrip_isSubstringOf (l : List Char) : isSubstringOf (pyStrip l) l := by
  refine isSubstringOf_trans ?_ (dropWhile_isSubstringOf pyIsSpace l)
  have hsuf : (l.dropWhile pyIsSpace).reverse.dropWhile pyIsSpace <:+
      (l.dropWhile pyIsSpace).reverse := List.dropWhile_suffix pyIsSpace
  obtain ⟨u, hu⟩ := hsuf
  refine ⟨[], u.reverse, ?_⟩
  have hrev := congrArg List.reverse hu
  simp only [List.reverse_append, List.reverse_reverse] at hrev
  simp only [List.nil_append, pyStrip]
  exact hrev.symm

theorem slice_isSubstringOf (t : List Char) (s n : Nat) :
    isSubstringOf ((t.drop s).take n) t := by
  refine ⟨t.take s, (t.drop s).drop n, ?_⟩
  rw [List.append_assoc, List.take_append_drop, List.take_append_drop]

theorem chunkLoop_substrings (t : List Char) (cs ov : Nat) :
    ∀ fuel s l, chunkLoop t cs ov fuel s = some l →
      ∀ c ∈ l, isSubstringOf c t := by
  intro fuel
  induction fuel with
  | zero => intro s l h; simp [chunkLoop] at h
  | succ fuel ih =>
    intro s l h
    simp only [chunkLoop] at h
    by_cases hs : s < t.length
    · rw [if_pos hs] at h
      cases hw : chunkLoop t cs ov fuel
          (if chunkEnd t cs s < t.length then chunkEnd t cs s - ov else t.length) with
      | none => rw [hw] at h; simp at h
      | some rest =>
        rw [hw] at h
        cases h
        intro c hc
        rcases List.mem_cons.mp hc with rfl | hcr
        · exact isSubstringOf_trans (pyStrip_isSubstringOf _) (slice_isSubstringOf t s _)
        · exact ih _ _ hw c hcr
    · rw [if_neg hs] at h
      cases h
      intro c hc
      simp at hc

theorem pyStrip_length_le (l : List Char) : (pyStrip l).length ≤ l.length := by
  unfold pyStrip
  calc ((l.dropWhile pyIsSpace).reverse.dropWhile pyIsSpace).reverse.length
      = ((l.dropWhile pyIsSpace).reverse.dropWhile pyIsSpace).length :=
        List.length_reverse _
    _ ≤ (l.dropWhile pyIsSpace).reverse.length :=
        (List.dropWhile_sublist pyIsSpace).length_le
    _ = (l.dropWhile pyIsSpace).length := List.length_reverse _
    _ ≤ l.length := (List.dropWhile_sublist pyIsSpace).length_le

theorem chunkEnd_snapSpec {t : List Char} {cs s : Nat}
    (hlt : chunkEnd t cs s < t.length) : snapSpec t cs s (chunkEnd t cs s) := by
  have he0lt : min (s + cs) t.length < t.length := by
    by_contra hc
    have : chunkEnd t cs s = min (s + cs) t.length := by
      unfold chunkEnd; dsimp only; rw [if_neg hc]
    omega
  have he0 : min (s + cs) t.length = s + cs := by
    rcases Nat.le_total (s + cs) t.length with h | h
    · exact Nat.min_eq_left h
    · exfalso; rw [Nat.min_eq_right h] at he0lt; omega
  unfold chunkEnd
  dsimp only
  rw [if_pos he0lt, he0]
  split
  · rename_i sb hsb
    split
    · rename_i hmid
      exact Or.inl ⟨sb, hsb, hmid, rfl⟩
    · rename_i hmid
      have hnb : ∀ sb', rfindDotSpace t s (s + cs) = some sb' → sb' ≤ s + cs / 2 := by
        intro sb' h'
        rw [hsb] at h'
        cases h'
        omega
      split
      · rename_i sp hsp
        split
        · rename_i hmid2
          exact Or.inr ⟨hnb, Or.inl ⟨sp, hsp, hmid2, rfl⟩⟩
        · rename_i hmid2
          refine Or.inr ⟨hnb, Or.inr ⟨?_, rfl⟩⟩
          intro sp' h'
          rw [hsp] at h'
          cases h'
          omega
      · rename_i hsp
        refine Or.inr ⟨hnb, Or.inr ⟨?_, rfl⟩⟩
        intro sp' h'
        simp [hsp] at h'
  · rename_i hsb
    have hnb : ∀ sb', rfindDotSpace t s (s + cs) = some sb' → sb' ≤ s + cs / 2 := by
      intro sb' h'
      simp [hsb] at h'
    split
    · rename_i sp hsp
      split
      · rename_i hmid2
        exact Or.inr ⟨hnb, Or.inl ⟨sp, hsp, hmid2, rfl⟩⟩
      · rename_i hmid2
        refine Or.inr ⟨hnb, Or.inr ⟨?_, rfl⟩⟩
        intro sp' h'
        rw [hsp] at h'
        cases h'
        omega
    · rename_i hsp
      refine Or.inr ⟨hnb, Or.inr ⟨?_, rfl⟩⟩
      intro sp' h'
      simp [hsp] at h'

/-! ### Claim theorems for the chunking subsystem -/

/-- C2, counterexample: on the input `"a\nb"` the single chunk produced by
`chunk_text` is `"a b"`, which is not a substring of the input text:
cleaning replaces the newline by a space before chunking. -/
theorem chunk_text_substring_counterexample :
    chunk_text ['a', '\n', 'b'] 1000 200 = some [['a', ' ', 'b']] ∧
    ¬ isSubstringOf ['a', ' ', 'b'] ['a', '\n', 'b'] := by
  constructor
  · decide
  · rintro ⟨pre, post, h⟩
    have hl := congrArg List.length h
    simp only [List.length_append, List.length_cons] at hl
    have hp : pre.length = 0 := by omega
    have hq : post.length = 0 := by omega
    rw [List.length_eq_zero] at hp hq
    subst hp
    subst hq
    simp only [List.nil_append, List.append_nil, List.cons.injEq] at h
    exact absurd h.2.1 (by decide)

/-- C2 (amended): every chunk produced by `chunk_text(text, chunk_size,
overlap)` is a substring (contiguous character sequence) of the cleaned
extracted text, i.e. of the input text after collapsing each whitespace run
to a single space and stripping the ends (`re.sub(r'\s+', ' ', text).strip()`,
line 94).  It need not be a substring of the raw input text. -/
theorem chunk_text_substring (t : List Char) (cs ov : Nat)
    (chunks : List (List Char)) (h : chunk_text t cs ov = some chunks) :
    ∀ c ∈ chunks, isSubstringOf c (cleanText t) := by
  unfold chunk_text at h
  by_cases ht : t.isEmpty
  · rw [if_pos ht] at h
    cases h
    intro c hc
    simp at hc
  · rw [if_neg ht] at h
    exact chunkLoop_substrings (cleanText t) cs ov _ _ _ h

/-- Witness for the amended C2 at a concrete input. -/
theorem chunk_text_substring_witness :
    isSubstringOf ['a', ' ', 'b'] (cleanText ['a', '\n', 'b']) :=
  chunk_text_substring ['a', '\n', 'b'] 1000 200 [['a', ' ', 'b']]
    (by decide) ['a', ' ', 'b'] (by decide)

/-- C3: `chunk_text` is a fixed-size sliding window with boundary snapping:
every returned chunk has length at most `chunk_size`; the chunks are exactly
the stripped window slices of the cleaned text; every window that does not
reach the end of the cleaned text has its end snapped per `snapSpec` (last
`'. '` in the window past the midpoint `start + chunk_size / 2`, keeping the
period, else last `' '` past the midpoint, else `start + chunk_size`); and
each next window starts at `end - overlap`. -/
theorem chunk_text_window_snapping (t : List Char) (cs ov : Nat)
    (chunks : List (List Char)) (h : chunk_text t cs ov = some chunks) :
    (∀ c ∈ chunks, c.length ≤ cs) ∧
    ∃ ws : List (Nat × Nat),
      chunkWindows (cleanText t) cs ov ((cleanText t).length + 1) 0 = some ws ∧
      chunks = ws.map (fun w => pyStrip (((cleanText t).drop w.1).take (w.2 - w.1))) ∧
      (∀ w ∈ ws, w.2 < (cleanText t).length → snapSpec (cleanText t) cs w.1 w.2) ∧
      List.Chain' (fun w w' => w.2 < (cleanText t).length ∧ w'.1 = w.2 - ov) ws := by
  have hmain : ∀ ws : List (Nat × Nat),
      chunkWindows (cleanText t) cs ov ((cleanText t).length + 1) 0 = some ws →
      chunks = ws.map (fun w => pyStrip (((cleanText t).drop w.1).take (w.2 - w.1))) →
      (∀ c ∈ chunks, c.length ≤ cs) ∧
      ∃ ws' : List (Nat × Nat),
        chunkWindows (cleanText t) cs ov ((cleanText t).length + 1) 0 = some ws' ∧
        chunks = ws'.map (fun w => pyStrip (((cleanText t).drop w.1).take (w.2 - w.1))) ∧
        (∀ w ∈ ws', w.2 < (cleanText t).length → snapSpec (cleanText t) cs w.1 w.2) ∧
        List.Chain' (fun w w' => w.2 < (cleanText t).length ∧ w'.1 = w.2 - ov) ws' := by
    intro ws hw hchunks
    obtain ⟨hmem, hchain⟩ := chunkWindows_sound (cleanText t) cs ov _ _ _ hw
    constructor
    · intro c hc
      rw [hchunks] at hc
      obtain ⟨w, hwmem, rfl⟩ := List.mem_map.mp hc
      have h1 : (pyStrip (((cleanText t).drop w.1).take (w.2 - w.1))).length ≤
          (((cleanText t).drop w.1).take (w.2 - w.1)).length := pyStrip_length_le _
      have h2 : (((cleanText t).drop w.1).take (w.2 - w.1)).length ≤ w.2 - w.1 :=
        List.length_take_le _ _
      have h3 : w.2 = chunkEnd (cleanText t) cs w.1 := (hmem w hwmem).2
      have h4 : chunkEnd (cleanText t) cs w.1 ≤ w.1 + cs := chunkEnd_le_add _ _ _
      omega
    · refine ⟨ws, hw, hchunks, ?_, hchain⟩
      intro w hwmem hwlt
      have h3 : w.2 = chunkEnd (cleanText t) cs w.1 := (hmem w hwmem).2
      rw [h3] at hwlt ⊢
      exact chunkEnd_snapSpec hwlt
  unfold chunk_text at h
  by_cases ht : t.isEmpty
  · rw [if_pos ht] at h
    cases h
    have htn : t = [] := List.isEmpty_iff.mp ht
    subst htn
    exact hmain [] rfl rfl
  · rw [if_neg ht] at h
    rw [chunkLoop_eq_windows] at h
    cases hw : chunkWindows (cleanText t) cs ov ((cleanText t).length + 1) 0 with
    | none => rw [hw] at h; simp at h
    | some ws =>
      rw [hw] at h
      simp only [Option.map_some', Option.some.injEq] at h
      obtain ⟨h1, ws', hw', h2, h3, h4⟩ := hmain ws hw h.symm
      rw [hw] at hw'
      exact ⟨h1, ws', hw', h2, h3, h4⟩

/-- Witness for C3 at a concrete input. -/
theorem chunk_text_window_snapping_witness :
    (∀ c ∈ [String.toList "one. two", String.toList "wo three"], c.length ≤ 8) ∧
    ∃ ws : List (Nat × Nat),
      chunkWindows (cleanText (String.toList "one. two three")) 8 2
        ((cleanText (String.toList "one. two three")).length + 1) 0 = some ws ∧
      [String.toList "one. two", String.toList "wo three"] =
        ws.map (fun w =>
          pyStrip (((cleanText (String.toList "one. two three")).drop w.1).take (w.2 - w.1))) ∧
      (∀ w ∈ ws, w.2 < (cleanText (String.toList "one. two three")).length →
        snapSpec (cleanText (String.toList "one. two three")) 8 w.1 w.2) ∧
      List.Chain' (fun w w' =>
        w.2 < (cleanText (String.toList "one. two three")).length ∧ w'.1 = w.2 - 2) ws :=
  chunk_text_window_snapping (String.toList "one. two three") 8 2
    [String.toList "one. two", String.toList "wo three"] (by decide)

/-- C4: whenever `overlap < chunk_size / 2`, `chunk_text` terminates (the
loop needs at most `len + 1` iterations, so the fueled loop returns `some`),
because the window end always lands strictly past `start + chunk_size / 2`,
so each iteration strictly increases the start index. -/
theorem chunk_text_terminates (t : List Char) (cs ov : Nat) (h2 : 2 * ov < cs) :
    (∃ chunks, chunk_text t cs ov = some chunks) ∧
    (∀ u : List Char, ∀ s : Nat, chunkEnd u cs s < u.length →
      s + cs / 2 < chunkEnd u cs s ∧ s < chunkEnd u cs s - ov) := by
  constructor
  · unfold chunk_text
    by_cases ht : t.isEmpty
    · rw [if_pos ht]; exact ⟨[], rfl⟩
    · rw [if_neg ht]
      obtain ⟨ws, hws⟩ :=
        chunkWindows_total h2 (cleanText t) ((cleanText t).length + 1) 0 (by omega)
      rw [chunkLoop_eq_windows, hws]
      exact ⟨_, rfl⟩
  · intro u s hu
    have hcs : cs ≠ 0 := by omega
    have hgt := chunkEnd_gt_mid hcs hu
    have hov : ov ≤ cs / 2 := by omega
    exact ⟨hgt, by omega⟩

/-- Witness for C4 at a concrete input (the defaults scaled down,
`chunk_size = 8`, `overlap = 2`). -/
theorem chunk_text_terminates_witness :
    (∃ chunks, chunk_text (String.toList "one. two three") 8 2 = some chunks) ∧
    (∀ u : List Char, ∀ s : Nat, chunkEnd u 8 s < u.length →
      s + 8 / 2 < chunkEnd u 8 s ∧ s < chunkEnd u 8 s - 2) :=
  chunk_text_terminates (String.toList "one. two three") 8 2 (by decide)

/-! ### `documents/utils.py`, `search_documents` (lines 193-266) and
`documents/models.py` (`Document`, `DocumentChunk`) -/

/-- The fields of a `Document` row that `search_documents` reads. -/
structure DocumentRec where
  id : Nat
  title : String
  campaignId : Option Nat
  campaignName : Option String
deriving DecidableEq

/-- The stored `DocumentChunk.embedding` column as seen by
`json.loads(chunk.embedding)` (line 224): either a value that parses to a
numeric vector (floats modelled as `ℚ`), or one on which `json.loads`
raises `JSONDecodeError`/`AttributeError` and the chunk is skipped. -/
inductive EmbeddingField where
  | valid : List ℚ → EmbeddingField
  | invalid : EmbeddingField
deriving DecidableEq

/-- `json.loads` on the embedding column, with the two caught exception
classes mapped to `none`. -/
def parseEmbedding : EmbeddingField → Option (List ℚ)
  | .valid v => some v
  | .invalid => none

/-- The fields of a `DocumentChunk` row that `search_documents` reads. -/
structure ChunkRec where
  id : Nat
  document : DocumentRec
  text : String
  pageNumber : Option Nat
  embedding : EmbeddingField
deriving DecidableEq

/-- The result dictionary built at lines 255-264. -/
structure SearchResult where
  document_id : Nat
  document_title : String
  campaign_id : Option Nat
  campaign_name : Option String
  chunk_id : Nat
  chunk_text : String
  page_number : Option Nat
  similarity_score : ℚ
deriving DecidableEq

/-- Squared L2 distance between two vectors, the metric of
`faiss.IndexFlatL2` (FAISS returns squared distances). -/
def sqDist (a b : List ℚ) : ℚ :=
  ((a.zip b).map (fun p => (p.1 - p.2) ^ 2)).sum

/-- Ordering of index-distance pairs by distance. -/
def sndLE (a b : Nat × ℚ) : Prop := a.2 ≤ b.2

instance : DecidableRel sndLE := fun a b => inferInstanceAs (Decidable (a.2 ≤ b.2))

instance : IsTotal (Nat × ℚ) sndLE := ⟨fun a b => le_total a.2 b.2⟩

instance : IsTrans (Nat × ℚ) sndLE := ⟨fun _ _ _ => le_trans⟩

/-- Model of `faiss.IndexFlatL2` built on `embs` and searched with query `q`
and `k` results (lines 238-246): the `k` index-distance pairs with smallest
squared L2 distance, in nondecreasing distance order. -/
def faissTopK (embs : List (List ℚ)) (q : List ℚ) (k : Nat) : List (Nat × ℚ) :=
  (List.insertionSort sndLE (embs.map (fun e => sqDist q e)).enum).take k

/-- The document filter applied to a chunk's document
(lines 206-212: `Document.objects.filter` then `chunks.filter(document__in=...)`). -/
def docPass (docFilter : Option (DocumentRec → Bool)) (c : ChunkRec) : Bool :=
  match docFilter with
  | some f => f c.document
  | none => true

/-- The chunks whose stored embeddings parse as valid JSON, paired with their
parsed embeddings (`embeddings_list`/`chunks_list`, lines 218-229). -/
def validChunks (chunks : List ChunkRec) (docFilter : Option (DocumentRec → Bool)) :
    List (ChunkRec × List ℚ) :=
  (chunks.filter (docPass docFilter)).filterMap
    (fun c => (parseEmbedding c.embedding).map (fun e => (c, e)))

/-- The result dictionary for one hit (lines 255-264);
`similarity_score = 1/(1+distance)` at line 263. -/
def mkSearchResult (c : ChunkRec) (d : ℚ) : SearchResult :=
  { document_id := c.document.id
    document_title := c.document.title
    campaign_id := c.document.campaignId
    campaign_name := c.document.campaignName
    chunk_id := c.id
    chunk_text := c.text
    page_number := c.pageNumber
    similarity_score := 1 / (1 + d) }

/-- `search_documents(query, document_filter, limit)` (lines 193-266).  The
stored chunk table and the query embedding
(`get_embedding_model().encode([query])[0]`, an external model call) are
arguments; a fresh flat L2 index is built from the valid chunks on every
call and searched with `k = min(limit, len(chunks_list))`; hits are kept
only `if idx < len(chunks_list)` (line 251). -/
def search_documents (chunks : List ChunkRec) (docFilter : Option (DocumentRec → Bool))
    (queryEmbedding : List ℚ) (limit : Nat) : List SearchResult :=
  let filtered := chunks.filter (docPass docFilter)
  if filtered.isEmpty then []
  else
    let valid := validChunks chunks docFilter
    if valid.isEmpty then []
    else
      let k := min limit valid.length
      let hits := faissTopK (valid.map (fun p => p.2)) queryEmbedding k
      hits.filterMap (fun h => (valid[h.1]?).map (fun ce => mkSearchResult ce.1 h.2))

theorem length_filterMap_of_isSome {α β : Type} (f : α → Option β) :
    ∀ l : List α, (∀ a ∈ l, (f a).isSome) → (l.filterMap f).length = l.length := by
  intro l
  induction l with
  | nil => intro _; rfl
  | cons a l ih =>
    intro h
    have ha : (f a).isSome := h a (List.mem_cons_self a l)
    obtain ⟨b, hb⟩ := Option.isSome_iff_exists.mp ha
    rw [List.filterMap_cons, hb]
    simp only [List.length_cons]
    rw [ih (fun x hx => h x (List.mem_cons_of_mem a hx))]

theorem enumFrom_filterMap_get {α : Type} (g : α → ℚ) :
    ∀ (l L : List α) (n : Nat), (∀ k, L[n + k]? = l[k]?) →
      (List.enumFrom n (l.map g)).filterMap
        (fun h => (L[h.1]?).map (fun ce => (ce, h.2))) =
      l.map (fun ce => (ce, g ce)) := by
  intro l
  induction l with
  | nil => intro L n _; rfl
  | cons a l ih =>
    intro L n hL
    have h0 : L[n]? = some a := by
      have := hL 0
      simpa using this
    simp only [List.map_cons, List.enumFrom_cons, List.filterMap_cons, h0, Option.map_some']
    rw [ih L (n + 1) (fun k => by
      have h1 := hL (k + 1)
      have h2 : n + (k + 1) = n + 1 + k := by omega
      rw [h2] at h1
      simpa using h1)]

theorem enum_filterMap_get {α : Type} (g : α → ℚ) (l : List α) :
    (l.map g).enum.filterMap (fun h => (l[h.1]?).map (fun ce => (ce, h.2))) =
      l.map (fun ce => (ce, g ce)) := by
  rw [List.enum_eq_enumFrom]
  exact enumFrom_filterMap_get g l l 0 (fun k => by simp)

/-! ### Claim theorem C1 -/

/-- C1: `search_documents` is a brute-force rebuild-on-every-call search: it
is a pure function of the stored chunk table and the query (nothing
persists between calls); from the chunks passing the document filter whose
embeddings parse as valid JSON it selects `min(limit, number of valid
chunks)` chunks of smallest (squared) L2 distance to the query embedding,
returned in nondecreasing-distance order with
`similarity_score = 1/(1+distance)`. -/
theorem search_documents_spec (chunks : List ChunkRec)
    (docFilter : Option (DocumentRec → Bool)) (q : List ℚ) (limit : Nat) :
    ∃ sel rest : List ((ChunkRec × List ℚ) × ℚ),
      (sel ++ rest).Perm
        ((validChunks chunks docFilter).map (fun ce => (ce, sqDist q ce.2))) ∧
      search_documents chunks docFilter q limit =
        sel.map (fun p => mkSearchResult p.1.1 p.2) ∧
      sel.length = min limit (validChunks chunks docFilter).length ∧
      List.Sorted (· ≤ ·) (sel.map (fun p => p.2)) ∧
      (∀ p ∈ sel, ∀ p' ∈ rest, p.2 ≤ p'.2) ∧
      (∀ p ∈ sel, (mkSearchResult p.1.1 p.2).similarity_score = 1 / (1 + p.2)) := by
  by_cases hf : (chunks.filter (docPass docFilter)).isEmpty
  · have hv : validChunks chunks docFilter = [] := by
      unfold validChunks
      rw [List.isEmpty_iff.mp hf]
      rfl
    refine ⟨[], [], by simp [hv], ?_, by simp [hv], by simp, by simp, by simp⟩
    unfold search_documents
    rw [if_pos hf]
    simp
  · by_cases hv : (validChunks chunks docFilter).isEmpty
    · have hv' : validChunks chunks docFilter = [] := List.isEmpty_iff.mp hv
      refine ⟨[], [], by simp [hv'], ?_, by simp [hv'], by simp, by simp, by simp⟩
      unfold search_documents
      rw [if_neg hf, if_pos hv]
      simp
    · set valid := validChunks chunks docFilter with hvalid
      set k := min limit valid.length with hk
      set dists := valid.map (fun ce => sqDist q ce.2) with hdists
      set sorted := List.insertionSort sndLE dists.enum with hsortdef
      set f' : (Nat × ℚ) → Option ((ChunkRec × List ℚ) × ℚ) :=
        fun h => (valid[h.1]?).map (fun ce => (ce, h.2)) with hf'
      have hf'snd : ∀ h p, f' h = some p → p.2 = h.2 := by
        intro h p hp
        have hp' : Option.map (fun ce => (ce, h.2)) valid[h.1]? = some p := hp
        cases hg : valid[h.1]? with
        | none => rw [hg] at hp'; simp at hp'
        | some ce =>
          rw [hg] at hp'
          simp only [Option.map_some', Option.some.injEq] at hp'
          rw [← hp']
      have hperm : sorted.Perm dists.enum := List.perm_insertionSort _ _
      have hkey : dists.enum.filterMap f' = valid.map (fun ce => (ce, sqDist q ce.2)) := by
        rw [hdists, hf']
        exact enum_filterMap_get _ valid
      have hsortlen : sorted.length = valid.length := by
        rw [hsortdef, List.length_insertionSort, List.enum_length, hdists, List.length_map]
      have hmemb : ∀ h ∈ sorted, h.1 < valid.length := by
        intro h hh
        have hmem : h ∈ dists.enum := hperm.mem_iff.mp hh
        obtain ⟨i, d⟩ := h
        have := (List.mem_enum hmem).1
        rw [hdists, List.length_map] at this
        exact this
      have hpair : sorted.Pairwise sndLE := List.sorted_insertionSort sndLE dists.enum
      have hpairsplit : ∀ a ∈ sorted.take k, ∀ b ∈ sorted.drop k, sndLE a b := by
        have h1 : List.Pairwise sndLE (sorted.take k ++ sorted.drop k) := by
          rw [List.take_append_drop]
          exact hpair
        exact (List.pairwise_append.mp h1).2.2
      refine ⟨(sorted.take k).filterMap f', (sorted.drop k).filterMap f', ?_, ?_, ?_, ?_, ?_, ?_⟩
      · have e1 : (sorted.take k).filterMap f' ++ (sorted.drop k).filterMap f'
            = sorted.filterMap f' := by
          rw [← List.filterMap_append, List.take_append_drop]
        rw [e1, ← hkey]
        exact hperm.filterMap f'
      · unfold search_documents
        rw [if_neg hf]
        rw [← hvalid, if_neg hv]
        have hde : ((valid.map (fun p => p.2)).map (fun e => sqDist q e)) = dists := by
          rw [hdists, List.map_map]
          rfl
        unfold faissTopK
        rw [hde, ← hsortdef, ← hk]
        rw [List.map_filterMap]
        apply List.filterMap_congr
        intro h _
        show Option.map (fun ce => mkSearchResult ce.1 h.2) valid[h.1]? =
          Option.map (fun p => mkSearchResult p.1.1 p.2)
            (Option.map (fun ce => (ce, h.2)) valid[h.1]?)
        cases valid[h.1]? <;> rfl
      · have hall : ∀ h ∈ sorted.take k, (f' h).isSome := by
          intro h hh
          have hlt : h.1 < valid.length :=
            hmemb h ((List.take_sublist k sorted).mem hh)
          show (Option.map (fun ce => (ce, h.2)) valid[h.1]?).isSome = true
          rw [List.getElem?_eq_getElem hlt]
          rfl
        rw [length_filterMap_of_isSome f' _ hall, List.length_take, hsortlen]
        rw [hk]
        omega
      · rw [List.Sorted, List.pairwise_map]
        rw [List.pairwise_filterMap]
        refine List.Pairwise.imp ?_ (List.Pairwise.sublist (List.take_sublist k sorted) hpair)
        intro a b hab p hp p' hp'
        have h1 := hf'snd a p hp
        have h2 := hf'snd b p' hp'
        rw [h1, h2]
        exact hab
      · intro p hp p' hp'
        obtain ⟨h, hh, hfh⟩ := List.mem_filterMap.mp hp
        obtain ⟨h', hh', hfh'⟩ := List.mem_filterMap.mp hp'
        rw [hf'snd h p hfh, hf'snd h' p' hfh']
        exact hpairsplit h hh h' hh'
      · intro p _
        rfl

/-! ### `documents/vector_store.py`, `ChromaVectorStore.search` (lines 135-194) -/

/-- The metadata dictionary stored with a chunk in ChromaDB, as read back by
`search` via `metadata.get(...)` (lines 182-185). -/
structure ChromaMeta where
  document_id : Option String
  document_title : Option String
  chunk_index : Option Nat
  page_number : Option Nat
deriving DecidableEq

/-- The shape of `collection.query(...)`'s return value used by `search`:
`results["documents"]`, `results["metadatas"]` and, when present,
`results["distances"]` (absent or `None` is `none`). -/
structure ChromaQueryResult where
  documents : List (List String)
  metadatas : List (List ChromaMeta)
  distances : Option (List (List ℚ))
deriving DecidableEq

/-- One formatted search result (lines 181-188). -/
structure ChromaHit where
  document_id : Option String
  document_title : Option String
  chunk_index : Option Nat
  page_number : Option Nat
  content : String
  relevance_score : Option ℚ
deriving DecidableEq

/-- The `where_filter` built from `filter_dict` (lines 152-161): keep only
the non-`None` values; if nothing remains (or no dict was given) pass
`None`. -/
def buildWhere (filter_dict : Option (List (String × Option String))) :
    Option (List (String × String)) :=
  match filter_dict with
  | none => none
  | some d =>
    let w := d.filterMap (fun kv => kv.2.map (fun v => (kv.1, v)))
    if w.isEmpty then none else some w

/-- One result dictionary (lines 181-188);
`relevance_score = 1 - distance/2` when a distance was returned. -/
def mkChromaHit (m : ChromaMeta) (doc : String) (dist : Option ℚ) : ChromaHit :=
  { document_id := m.document_id
    document_title := m.document_title
    chunk_index := m.chunk_index
    page_number := m.page_number
    content := doc
    relevance_score := dist.map (fun d => 1 - d / 2) }

/-- The `results["distances"][0]` row actually used: the key must be present
and truthy (a non-empty outer list), per
`results["distances"][0][i] if results.get("distances") else None`
(line 179). -/
def chromaDists : Option (List (List ℚ)) → Option (List ℚ)
  | none => none
  | some [] => none
  | some (ds0 :: _) => some ds0

/-- The formatting loop over `enumerate(results["documents"][0])`
(lines 177-188); `none` models an `IndexError` on `metadatas[0][i]` or
`distances[0][i]`, which the outer `except` turns into `[]`. -/
def chromaFormatHits : List String → List ChromaMeta → Option (List ℚ) →
    Option (List ChromaHit)
  | [], _, _ => some []
  | _ :: _, [], _ => none
  | doc :: docs, m :: ms, none =>
    (chromaFormatHits docs ms none).map (fun rest => mkChromaHit m doc none :: rest)
  | _ :: _, _ :: _, some [] => none
  | doc :: docs, m :: ms, some (d :: ds) =>
    (chromaFormatHits docs ms (some ds)).map
      (fun rest => mkChromaHit m doc (some d) :: rest)

/-- `ChromaVectorStore.search(query, limit, filter_dict)` (lines 135-194).
The external ChromaDB collection is the oracle argument `collQuery`
(`Except.error` models a raised exception); the function forwards the query
text, `limit` and the built `where` filter, and only reformats the result;
any exception yields `[]`. -/
def ChromaVectorStore.search
    (collQuery : String → Nat → Option (List (String × String)) →
      Except Unit ChromaQueryResult)
    (query : String) (limit : Nat)
    (filter_dict : Option (List (String × Option String))) : List ChromaHit :=
  match collQuery query limit (buildWhere filter_dict) with
  | .error _ => []
  | .ok results =>
    match results.documents with
    | [] => []
    | docs0 :: _ =>
      (chromaFormatHits docs0 (results.metadatas.head?.getD [])
        (chromaDists results.distances)).getD []

theorem chromaFormatHits_length :
    ∀ (docs : List String) (metas : List ChromaMeta) (ds : Option (List ℚ))
      (hits : List ChromaHit), chromaFormatHits docs metas ds = some hits →
      hits.length = docs.length := by
  intro docs
  induction docs with
  | nil =>
    intro metas ds hits h
    cases h
    rfl
  | cons doc docs ih =>
    intro metas ds hits h
    cases metas with
    | nil => simp [chromaFormatHits] at h
    | cons m ms =>
      cases ds with
      | none =>
        cases hr : chromaFormatHits docs ms none with
        | none => rw [chromaFormatHits, hr] at h; simp at h
        | some rest =>
          rw [chromaFormatHits, hr] at h
          cases h
          simp only [List.length_cons]
          rw [ih ms none rest hr]
      | some ds' =>
        cases ds' with
        | nil => simp [chromaFormatHits] at h
        | cons d ds'' =>
          cases hr : chromaFormatHits docs ms (some ds'') with
          | none => rw [chromaFormatHits, hr] at h; simp at h
          | some rest =>
            rw [chromaFormatHits, hr] at h
            cases h
            simp only [List.length_cons]
            rw [ih ms (some ds'') rest hr]

theorem chromaFormatHits_scores_none :
    ∀ (docs : List String) (metas : List ChromaMeta) (hits : List ChromaHit),
      chromaFormatHits docs metas none = some hits →
      hits.map (fun h => h.relevance_score) = docs.map (fun _ => none) := by
  intro docs
  induction docs with
  | nil =>
    intro metas hits h
    cases h
    rfl
  | cons doc docs ih =>
    intro metas hits h
    cases metas with
    | nil => simp [chromaFormatHits] at h
    | cons m ms =>
      cases hr : chromaFormatHits docs ms none with
      | none => rw [chromaFormatHits, hr] at h; simp at h
      | some rest =>
        rw [chromaFormatHits, hr] at h
        cases h
        simp only [List.map_cons]
        rw [ih ms rest hr]
        rfl

theorem chromaFormatHits_scores_some :
    ∀ (docs : List String) (metas : List ChromaMeta) (ds : List ℚ)
      (hits : List ChromaHit),
      chromaFormatHits docs metas (some ds) = some hits →
      hits.map (fun h => h.relevance_score) =
        (ds.take docs.length).map (fun d => some (1 - d / 2)) := by
  intro docs
  induction docs with
  | nil =>
    intro metas ds hits h
    cases h
    rfl
  | cons doc docs ih =>
    intro metas ds hits h
    cases metas with
    | nil => simp [chromaFormatHits] at h
    | cons m ms =>
      cases ds with
      | nil => simp [chromaFormatHits] at h
      | cons d ds' =>
        cases hr : chromaFormatHits docs ms (some ds') with
        | none => rw [chromaFormatHits, hr] at h; simp at h
        | some rest =>
          rw [chromaFormatHits, hr] at h
          cases h
          simp only [List.map_cons, List.take_cons]
          rw [ih ms ds' rest hr]
          rfl

/-- C5: `ChromaVectorStore.search` does no local similarity computation: it
forwards the query text, limit and the non-`None` filter entries to the
external ChromaDB collection and only reformats the returned hits; at most
`limit` results come back when the collection honours `n_results`; each hit
carries `relevance_score = 1 - distance/2` when a distance is returned and
`None` otherwise; the empty list is returned both when the collection
returns no documents and when any exception occurs. -/
theorem ChromaVectorStore.search_spec
    (collQuery : String → Nat → Option (List (String × String)) →
      Except Unit ChromaQueryResult)
    (query : String) (limit : Nat)
    (fd : Option (List (String × Option String))) :
    (∀ e, collQuery query limit (buildWhere fd) = .error e →
      ChromaVectorStore.search collQuery query limit fd = []) ∧
    (∀ res, collQuery query limit (buildWhere fd) = .ok res → res.documents = [] →
      ChromaVectorStore.search collQuery query limit fd = []) ∧
    (∀ res docs0 drest, collQuery query limit (buildWhere fd) = .ok res →
      res.documents = docs0 :: drest →
      ChromaVectorStore.search collQuery query limit fd =
        (chromaFormatHits docs0 (res.metadatas.head?.getD [])
          (chromaDists res.distances)).getD []) ∧
    (∀ k v, (∃ w, buildWhere fd = some w ∧ (k, v) ∈ w) ↔
      (∃ d, fd = some d ∧ (k, some v) ∈ d)) ∧
    (∀ res docs0 drest, collQuery query limit (buildWhere fd) = .ok res →
      res.documents = docs0 :: drest → docs0.length ≤ limit →
      (ChromaVectorStore.search collQuery query limit fd).length ≤ limit) ∧
    (∀ docs metas hits, chromaFormatHits docs metas none = some hits →
      hits.map (fun h => h.relevance_score) = docs.map (fun _ => none)) ∧
    (∀ docs metas ds hits, chromaFormatHits docs metas (some ds) = some hits →
      hits.map (fun h => h.relevance_score) =
        (ds.take docs.length).map (fun d => some (1 - d / 2))) := by
  have hform : ∀ res docs0 drest, collQuery query limit (buildWhere fd) = .ok res →
      res.documents = docs0 :: drest →
      ChromaVectorStore.search collQuery query limit fd =
        (chromaFormatHits docs0 (res.metadatas.head?.getD [])
          (chromaDists res.distances)).getD [] := by
    intro res docs0 drest hok hd
    unfold ChromaVectorStore.search
    rw [hok]
    dsimp only
    rw [hd]
  refine ⟨?_, ?_, hform, ?_, ?_, chromaFormatHits_scores_none, chromaFormatHits_scores_some⟩
  · intro e he
    unfold ChromaVectorStore.search
    rw [he]
  · intro res hok hd
    unfold ChromaVectorStore.search
    rw [hok]
    dsimp only
    rw [hd]
  · intro k v
    cases fd with
    | none => simp [buildWhere]
    | some d =>
      constructor
      · rintro ⟨w, hw, hkv⟩
        refine ⟨d, rfl, ?_⟩
        simp only [buildWhere] at hw
        by_cases hemp : (d.filterMap (fun kv => kv.2.map (fun v' => (kv.1, v')))).isEmpty
        · rw [if_pos hemp] at hw
          cases hw
        · rw [if_neg hemp] at hw
          cases hw
          obtain ⟨kv, hkvd, hkveq⟩ := List.mem_filterMap.mp hkv
          obtain ⟨k2, v2⟩ := kv
          cases hv2 : v2 with
          | none => rw [hv2] at hkveq; simp at hkveq
          | some v3 =>
            rw [hv2] at hkveq
            simp only [Option.map_some', Option.some.injEq, Prod.mk.injEq] at hkveq
            rw [hv2] at hkvd
            obtain ⟨hk2, hv3⟩ := hkveq
            rw [← hk2, ← hv3]
            exact hkvd
      · rintro ⟨d', hd', hkv⟩
        cases hd'
        have hmem : (k, v) ∈ d.filterMap (fun kv => kv.2.map (fun v' => (kv.1, v'))) :=
          List.mem_filterMap.mpr ⟨(k, some v), hkv, rfl⟩
        have hne : ¬ (d.filterMap (fun kv => kv.2.map (fun v' => (kv.1, v')))).isEmpty := by
          intro hemp
          rw [List.isEmpty_iff.mp hemp] at hmem
          simp at hmem
        refine ⟨d.filterMap (fun kv => kv.2.map (fun v' => (kv.1, v'))), ?_, hmem⟩
        simp only [buildWhere]
        rw [if_neg hne]
  · intro res docs0 drest hok hd hlen
    rw [hform res docs0 drest hok hd]
    cases hfh : chromaFormatHits docs0 (res.metadatas.head?.getD [])
        (chromaDists res.distances) with
    | none => simp
    | some hits =>
      simp only [Option.getD_some]
      rw [chromaFormatHits_length docs0 _ _ hits hfh]
      exact hlen

/-! ### `prompts/insight_prompts.py` and `recorder/views.py`,
`summarize_latest_transcriptions` (lines 111-199) -/

/-- The fields of a `RecordingSession` row read by the summary path. -/
structure SessionRec where
  id : Nat
  latest_insight_text : Option String
deriving DecidableEq

/-- The fields of a `Transcription` row read by the summary path. -/
structure TranscriptionRec where
  id : Nat
  session : Option Nat
  created_at : Nat
  chunk_number : Nat
  text : String
  generated_insight_text : Option String
deriving DecidableEq

/-- Python truthiness of an optional string (`None` and `""` are falsy). -/
def pyTruthy : Option String → Bool
  | none => false
  | some s => !(s == "")

/-- `get_regular_insight_prompt(combined_text, previous_insight)`
(`prompts/insight_prompts.py`). -/
def get_regular_insight_prompt (combined_text : String)
    (previous_insight : Option String) : String :=
  let prompt :=
    "Analyze the following D&D discussion snippets. Identify if any specific D&D 5e rule is being discussed, implied, or might be relevant. Use the search_rules_tool to search the ChromaDB vector database for relevant rules first. Prioritize information from the vector database over your general knowledge. If a rule is relevant, respond ONLY with a concise explanation or application of that rule, focusing strictly on mechanics or outcome. Start the response directly with the rule explanation. Avoid mentioning the snippets, searching, or conversational filler. If providing a rule insight, conclude your response with a one-sentence summary labeled 'TL;DR:'. If you determine that no specific rule is relevant to the discussion, respond ONLY with the exact phrase: No Insight right now "
  let prompt :=
    if pyTruthy previous_insight then
      prompt ++ "Previously, you identified this insight: \"" ++ previous_insight.getD "" ++
        "\"\nOnly provide a new insight if the discussion has moved to a different rule or aspect. If there's nothing significantly new to add, respond with 'No Insight right now'.\n\n"
    else prompt
  prompt ++ "Discussion Snippets:\n\n" ++ combined_text

/-- `get_forced_insight_prompt(combined_text, previous_insight)`
(`prompts/insight_prompts.py`). -/
def get_forced_insight_prompt (combined_text : String)
    (previous_insight : Option String) : String :=
  let prompt :=
    "Analyze the following D&D discussion snippets. Identify the MOST relevant D&D 5e rule, even if the connection is weak. Use the search_rules_tool to search the ChromaDB vector database for relevant rules first. Prioritize information from the vector database over your general knowledge. Respond ONLY with a concise explanation or application of that rule, focusing strictly on mechanics or outcome. Do NOT mention the snippets, searching, or conversational filler. Start your response directly with the rule explanation. Conclude your response with a one-sentence summary labeled 'TL;DR:'. "
  let prompt :=
    if pyTruthy previous_insight then
      prompt ++ "Previously, you identified this insight: \"" ++ previous_insight.getD "" ++
        "\"\nIf the same rule is still relevant, elaborate on it rather than repeating information. If a completely different rule is now more relevant, focus on that instead.\n\n"
    else prompt
  prompt ++ "Discussion Snippets:\n\n" ++ combined_text

/-- Django's `order_by('-created_at')`: most recent first. -/
def byCreatedDesc (a b : TranscriptionRec) : Prop := b.created_at ≤ a.created_at

instance : DecidableRel byCreatedDesc :=
  fun a b => inferInstanceAs (Decidable (b.created_at ≤ a.created_at))

instance : IsTotal TranscriptionRec byCreatedDesc := ⟨fun a b => le_total b.created_at a.created_at⟩

instance : IsTrans TranscriptionRec byCreatedDesc := ⟨fun _ _ _ h1 h2 => le_trans h2 h1⟩

/-- The prompt `summarize_latest_transcriptions` hands to `Runner.run_sync`
(`recorder/views.py` lines 111-165), or `none` on the paths that return
`None` before the agent is invoked: triggering transcription not found, no
associated session, or no transcriptions for the session. -/
def summarize_latest_transcriptions_prompt (db : List TranscriptionRec)
    (sessions : List SessionRec) (tid : Nat) (is_forced : Bool) : Option String :=
  match db.find? (fun t => t.id == tid) with
  | none => none
  | some tr =>
    match tr.session with
    | none => none
    | some sid =>
      let latest := (List.insertionSort byCreatedDesc
        (db.filter (fun t => t.session == some sid))).take 6
      if latest.isEmpty then none
      else
        let withInsights := List.insertionSort byCreatedDesc
          (db.filter (fun t => t.session == some sid && !(t.generated_insight_text == none)
            && !(t.id == tid) && !(t.generated_insight_text == some "No Insight right now")))
        let previous_insight : Option String :=
          match withInsights.head? with
          | some t0 => t0.generated_insight_text
          | none =>
            match (sessions.find? (fun s => s.id == sid)).bind
                (fun s => s.latest_insight_text) with
            | some s => if s ≠ "" ∧ s ≠ "No Insight right now" then some s else none
            | none => none
        let combined := String.intercalate "\n"
          (latest.map (fun t => "Chunk " ++ toString t.chunk_number ++ ": " ++ t.text))
        some (if is_forced then get_forced_insight_prompt combined previous_insight
          else get_regular_insight_prompt combined previous_insight)

/-- `summarize_latest_transcriptions(triggering_transcription_id, is_forced)`:
the agent run (`Runner.run_sync`, an external LLM call) is the oracle
`agent`; `none` is returned on the early-exit paths, on an agent exception,
and when `result.final_output` is `None`. -/
def summarize_latest_transcriptions (agent : String → Option String)
    (db : List TranscriptionRec) (sessions : List SessionRec) (tid : Nat)
    (is_forced : Bool) : Option String :=
  (summarize_latest_transcriptions_prompt db sessions tid is_forced).bind agent

/-- C6: insight generation derives from the most recent transcript chunks:
when the triggering transcription exists and has a session, the prompt's
transcript content is exactly the (at most) 6 most recently created
transcriptions of that session joined as `Chunk {n}: {text}` lines; when
the transcription does not exist, has no session, or the session has no
transcriptions, the function returns `None` without invoking the agent. -/
theorem summarize_latest_transcriptions_spec (db : List TranscriptionRec)
    (sessions : List SessionRec) (tid : Nat) (is_forced : Bool) :
    (db.find? (fun t => t.id == tid) = none →
      summarize_latest_transcriptions_prompt db sessions tid is_forced = none) ∧
    (∀ tr, db.find? (fun t => t.id == tid) = some tr → tr.session = none →
      summarize_latest_transcriptions_prompt db sessions tid is_forced = none) ∧
    (∀ tr sid, db.find? (fun t => t.id == tid) = some tr → tr.session = some sid →
      db.filter (fun t => t.session == some sid) = [] →
      summarize_latest_transcriptions_prompt db sessions tid is_forced = none) ∧
    (∀ agent, summarize_latest_transcriptions_prompt db sessions tid is_forced = none →
      summarize_latest_transcriptions agent db sessions tid is_forced = none) ∧
    (∀ tr sid, db.find? (fun t => t.id == tid) = some tr → tr.session = some sid →
      db.filter (fun t => t.session == some sid) ≠ [] →
      ∃ sel rest : List TranscriptionRec,
        (sel ++ rest).Perm (db.filter (fun t => t.session == some sid)) ∧
        sel.length = min 6 (db.filter (fun t => t.session == some sid)).length ∧
        List.Sorted byCreatedDesc sel ∧
        (∀ u ∈ sel, ∀ v ∈ rest, v.created_at ≤ u.created_at) ∧
        ∃ prev : Option String,
          summarize_latest_transcriptions_prompt db sessions tid is_forced =
            some (if is_forced then
              get_forced_insight_prompt (String.intercalate "\n"
                (sel.map (fun t => "Chunk " ++ toString t.chunk_number ++ ": " ++ t.text))) prev
            else
              get_regular_insight_prompt (String.intercalate "\n"
                (sel.map (fun t => "Chunk " ++ toString t.chunk_number ++ ": " ++ t.text))) prev)) := by
  refine ⟨?_, ?_, ?_, ?_, ?_⟩
  · intro h
    unfold summarize_latest_transcriptions_prompt
    rw [h]
  · intro tr hfind hsess
    unfold summarize_latest_transcriptions_prompt
    rw [hfind]
    dsimp only
    rw [hsess]
  · intro tr sid hfind hsess hfilt
    unfold summarize_latest_transcriptions_prompt
    rw [hfind]
    dsimp only
    rw [hsess]
    dsimp only
    rw [hfilt]
    rfl
  · intro agent h
    unfold summarize_latest_transcriptions
    rw [h]
    rfl
  · intro tr sid hfind hsess hfilt
    set filt := db.filter (fun t => t.session == some sid) with hfiltdef
    set sorted := List.insertionSort byCreatedDesc filt with hsorteddef
    have hsortlen : sorted.length = filt.length := List.length_insertionSort _ _
    have hsortperm : sorted.Perm filt := List.perm_insertionSort _ _
    have hpair : List.Pairwise byCreatedDesc sorted :=
      List.sorted_insertionSort byCreatedDesc filt
    have hsplit : ∀ a ∈ sorted.take 6, ∀ b ∈ sorted.drop 6, byCreatedDesc a b := by
      have h1 : List.Pairwise byCreatedDesc (sorted.take 6 ++ sorted.drop 6) := by
        rw [List.take_append_drop]
        exact hpair
      exact (List.pairwise_append.mp h1).2.2
    refine ⟨sorted.take 6, sorted.drop 6, ?_, ?_, ?_, ?_, ?_⟩
    · have he : sorted.take 6 ++ sorted.drop 6 = sorted := List.take_append_drop 6 sorted
      rw [he]
      exact hsortperm
    · rw [List.length_take, hsortlen]
    · exact List.Pairwise.sublist (List.take_sublist 6 sorted) hpair
    · intro u hu v hv
      exact hsplit u hu v hv
    · unfold summarize_latest_transcriptions_prompt
      rw [hfind]
      dsimp only
      rw [hsess]
      dsimp only
      have hne : ¬ ((List.insertionSort byCreatedDesc
          (db.filter (fun t => t.session == some sid))).take 6).isEmpty = true := by
        intro hemp
        apply hfilt
        have h0 := List.isEmpty_iff.mp hemp
        have hlen := congrArg List.length h0
        rw [List.length_take, List.length_insertionSort, List.length_nil] at hlen
        have hz : (db.filter (fun t => t.session == some sid)).length = 0 := by omega
        exact List.length_eq_zero.mp hz
      rw [if_neg hne]
      exact ⟨_, rfl⟩

/-! ### `documents/services.py`, `DocumentService` (upload / process / delete)
and the `Document.Status` enum (`documents/models.py` lines 20-24) -/

/-- The four values of `Document.Status`. -/
def validStatuses : List String := ["PENDING", "PROCESSING", "COMPLETE", "FAILED"]

/-- The fields of a `Document` row that the service layer touches. -/
structure DocRow where
  id : Nat
  status : String
  openai_file_id : Option String
deriving DecidableEq

/-- `Document.objects.create(..., status=Document.Status.PENDING)`
(services.py lines 43-50). -/
def newDocument (id : Nat) : DocRow :=
  { id := id, status := "PENDING", openai_file_id := none }

/-- `document.save(update_fields=...)`: replace the row with the given id. -/
def updateDoc (store : List DocRow) (id : Nat) (f : DocRow → DocRow) : List DocRow :=
  store.map (fun d => if d.id == id then f d else d)

/-- The external outcomes `upload_document` depends on: the
`VECTOR_STORE_ID` environment variable, `openai_client.files.create`
(`.ok` carries the file id) and
`openai_client.beta.vector_stores.files.create` (`.ok` carries
`vector_store_file.status`); `.error` models a raised
`APIError`/`RateLimitError`/other exception. -/
structure UploadEnv where
  vector_store_id : Option String
  files_create : Except Unit String
  vs_files_create : Except Unit String

/-- `DocumentService.upload_document` (services.py lines 14-119) acting on
the `Document` table, returning the new table and either the created
document's id or the re-raised exception. -/
def upload_document (env : UploadEnv) (store : List DocRow) (newId : Nat) :
    List DocRow × Except Unit Nat :=
  match env.vector_store_id with
  | none => (store, .error ())
  | some _ =>
    let store1 := store ++ [newDocument newId]
    match env.files_create with
    | .error _ =>
      (updateDoc store1 newId (fun d => { d with status := "FAILED" }), .error ())
    | .ok fid =>
      let store2 := updateDoc store1 newId
        (fun d => { d with status := "PROCESSING", openai_file_id := some fid })
      match env.vs_files_create with
      | .error _ =>
        (updateDoc store2 newId (fun d => { d with status := "FAILED" }), .error ())
      | .ok vs_status =>
        let final := if vs_status == "completed" then "COMPLETE"
          else if vs_status == "failed" then "FAILED" else "PROCESSING"
        (updateDoc store2 newId (fun d => { d with status := final }), .ok newId)

/-- `DocumentService.process_document` (services.py lines 121-136),
deprecated: flips a stale `PENDING`-without-file-id document to `FAILED`
and always returns `False`. -/
def process_document (store : List DocRow) (docId : Nat) : List DocRow × Bool :=
  match store.find? (fun d => d.id == docId) with
  | none => (store, false)
  | some d =>
    if d.status == "PENDING" && d.openai_file_id == none then
      (updateDoc store docId (fun d' => { d' with status := "FAILED" }), false)
    else (store, false)

/-- The external outcomes `delete_document` depends on:
`document.delete()` on the local record, `os.remove` on the local file
(`OSError` caught at lines 221-222), and `openai_client.files.delete`
(`.ok` carries `delete_status.deleted`; exceptions caught at
lines 233-237). -/
structure DeleteEnv where
  record_delete : Except Unit Unit
  os_remove : Except Unit Unit
  openai_delete : Except Unit Bool

/-- `DocumentService.delete_document` (services.py lines 201-245): the
local-file and OpenAI deletion outcomes are consulted only for logging, so
the function ignores them. -/
def delete_document (env : DeleteEnv) (store : List DocRow) (docId : Nat) :
    List DocRow × Bool :=
  match store.find? (fun d => d.id == docId) with
  | none => (store, false)
  | some _ =>
    match env.record_delete with
    | .error _ => (store, false)
    | .ok _ => (store.filter (fun d => !(d.id == docId)), true)

theorem mem_updateDoc {store : List DocRow} {id : Nat} {f : DocRow → DocRow}
    {d : DocRow} (hd : d ∈ updateDoc store id f) :
    ∃ d0 ∈ store, d = d0 ∨ d = f d0 := by
  obtain ⟨d0, hd0, heq⟩ := List.mem_map.mp hd
  by_cases hid : d0.id == id
  · rw [if_pos hid] at heq
    exact ⟨d0, hd0, Or.inr heq.symm⟩
  · rw [if_neg hid] at heq
    exact ⟨d0, hd0, Or.inl heq.symm⟩

theorem updateDoc_append_fresh {store : List DocRow} {id : Nat} (x : DocRow)
    (f : DocRow → DocRow) (hfresh : ∀ d ∈ store, d.id ≠ id) (hx : x.id = id) :
    updateDoc (store ++ [x]) id f = store ++ [f x] := by
  unfold updateDoc
  rw [List.map_append]
  congr 1
  · have h1 : store.map (fun d => if (d.id == id) = true then f d else d) =
        store.map (fun d => d) := by
      apply List.map_congr_left
      intro d hd
      rw [if_neg (by simpa using hfresh d hd)]
    rw [h1]
    simp
  · simp [hx]

theorem find_append_fresh {store : List DocRow} {id : Nat} (y : DocRow)
    (hfresh : ∀ d ∈ store, d.id ≠ id) (hy : y.id = id) :
    (store ++ [y]).find? (fun d => d.id == id) = some y := by
  rw [List.find?_append]
  have h1 : store.find? (fun d => d.id == id) = none :=
    List.find?_eq_none.mpr (fun d hd => by simpa using hfresh d hd)
  rw [h1]
  simp [hy]

theorem statuses_updateDoc {store : List DocRow} {id : Nat} {f : DocRow → DocRow}
    (h : ∀ d ∈ store, d.status ∈ validStatuses)
    (hf : ∀ d ∈ store, (f d).status ∈ validStatuses) :
    ∀ d ∈ updateDoc store id f, d.status ∈ validStatuses := by
  intro d hd
  obtain ⟨d0, hd0, hcase⟩ := mem_updateDoc hd
  rcases hcase with heq | heq
  · rw [heq]; exact h d0 hd0
  · rw [heq]; exact hf d0 hd0

/-- C7: the document-processing status is a four-value state machine: a
newly created document starts in `PENDING`, and `upload_document`,
`process_document` and `delete_document` keep every stored document's
status within `{PENDING, PROCESSING, COMPLETE, FAILED}`. -/
theorem document_status_machine (uenv : UploadEnv) (denv : DeleteEnv)
    (store : List DocRow) (newId docId : Nat)
    (h : ∀ d ∈ store, d.status ∈ validStatuses) :
    (newDocument newId).status = "PENDING" ∧
    (∀ d ∈ (upload_document uenv store newId).1, d.status ∈ validStatuses) ∧
    (∀ d ∈ (process_document store docId).1, d.status ∈ validStatuses) ∧
    (∀ d ∈ (delete_document denv store docId).1, d.status ∈ validStatuses) := by
  have hbase : ∀ d ∈ store ++ [newDocument newId], d.status ∈ validStatuses := by
    intro d hd
    rcases List.mem_append.mp hd with hd' | hd'
    · exact h d hd'
    · rw [List.mem_singleton.mp hd']
      simp [newDocument, validStatuses]
  refine ⟨rfl, ?_, ?_, ?_⟩
  · obtain ⟨vsid, fc, vfc⟩ := uenv
    cases vsid with
    | none => exact h
    | some v =>
      cases fc with
      | error e =>
        exact statuses_updateDoc hbase (fun d _ => by simp [validStatuses])
      | ok fid =>
        have hstep : ∀ d ∈ updateDoc (store ++ [newDocument newId]) newId
            (fun d => { d with status := "PROCESSING", openai_file_id := some fid }),
            d.status ∈ validStatuses :=
          statuses_updateDoc hbase (fun d _ => by simp [validStatuses])
        cases vfc with
        | error e =>
          exact statuses_updateDoc hstep (fun d _ => by simp [validStatuses])
        | ok vs =>
          refine statuses_updateDoc hstep (fun d _ => ?_)
          by_cases h1 : vs == "completed"
          · simp [h1, validStatuses]
          · by_cases h2 : vs == "failed"
            · simp [h1, h2, validStatuses]
            · simp [h1, h2, validStatuses]
  · unfold process_document
    cases hf : store.find? (fun d => d.id == docId) with
    | none => exact h
    | some d =>
      dsimp only
      by_cases hc : d.status == "PENDING" && d.openai_file_id == none
      · rw [if_pos hc]
        exact statuses_updateDoc h (fun d _ => by simp [validStatuses])
      · rw [if_neg hc]
        exact h
  · unfold delete_document
    cases hf : store.find? (fun d => d.id == docId) with
    | none => exact h
    | some d =>
      obtain ⟨rd, orm, od⟩ := denv
      cases rd with
      | error e => exact h
      | ok u =>
        intro d' hd'
        exact h d' (List.mem_filter.mp hd').1

/-- Witness for C7 at a concrete store and environment. -/
theorem document_status_machine_witness :
    (newDocument 1).status = "PENDING" ∧
    (∀ d ∈ (upload_document ⟨some "vs", .ok "file-1", .ok "completed"⟩
      [newDocument 0] 1).1, d.status ∈ validStatuses) ∧
    (∀ d ∈ (process_document [newDocument 0] 0).1, d.status ∈ validStatuses) ∧
    (∀ d ∈ (delete_document ⟨.ok (), .error (), .ok true⟩
      [newDocument 0] 0).1, d.status ∈ validStatuses) :=
  document_status_machine ⟨some "vs", .ok "file-1", .ok "completed"⟩
    ⟨.ok (), .error (), .ok true⟩ [newDocument 0] 1 0
    (by intro d hd; rw [List.mem_singleton.mp hd]; simp [newDocument, validStatuses])

/-- C8: when `upload_document` raises after the local record was created,
the record is left `FAILED` (never `PENDING` or `PROCESSING`); when it
raises before record creation (missing `VECTOR_STORE_ID`), the table is
unchanged and no record with the new id exists. -/
theorem upload_document_failed_status (env : UploadEnv) (store : List DocRow)
    (newId : Nat) (hfresh : ∀ d ∈ store, d.id ≠ newId)
    (herr : (upload_document env store newId).2 = .error ()) :
    (env.vector_store_id = none ∧ (upload_document env store newId).1 = store ∧
      (upload_document env store newId).1.find? (fun d => d.id == newId) = none) ∨
    (∃ d, (upload_document env store newId).1.find? (fun d' => d'.id == newId) = some d ∧
      d.status = "FAILED") := by
  obtain ⟨vsid, fc, vfc⟩ := env
  cases vsid with
  | none =>
    left
    refine ⟨rfl, rfl, ?_⟩
    exact List.find?_eq_none.mpr (fun d hd => by simpa using hfresh d hd)
  | some v =>
    right
    cases fc with
    | error e =>
      refine ⟨{ newDocument newId with status := "FAILED" }, ?_, rfl⟩
      show (updateDoc (store ++ [newDocument newId]) newId
        (fun d => { d with status := "FAILED" })).find? (fun d' => d'.id == newId) =
        some { newDocument newId with status := "FAILED" }
      rw [updateDoc_append_fresh (newDocument newId)
        (fun d => { d with status := "FAILED" }) hfresh rfl]
      exact find_append_fresh _ hfresh rfl
    | ok fid =>
      cases vfc with
      | error e =>
        refine ⟨{ newDocument newId with
          status := "FAILED", openai_file_id := some fid }, ?_, rfl⟩
        show (updateDoc (updateDoc (store ++ [newDocument newId]) newId
            (fun d => { d with status := "PROCESSING", openai_file_id := some fid }))
            newId (fun d => { d with status := "FAILED" })).find?
            (fun d' => d'.id == newId) = some { newDocument newId with
              status := "FAILED", openai_file_id := some fid }
        rw [updateDoc_append_fresh (newDocument newId)
          (fun d => { d with status := "PROCESSING", openai_file_id := some fid })
          hfresh rfl]
        rw [updateDoc_append_fresh ({ newDocument newId with
            status := "PROCESSING", openai_file_id := some fid })
          (fun d => { d with status := "FAILED" }) hfresh rfl]
        exact find_append_fresh _ hfresh rfl
      | ok vs =>
        exfalso
        simp [upload_document] at herr

/-- Witness for C8: the OpenAI file upload fails after the record exists. -/
theorem upload_document_failed_status_witness :
    ((⟨some "vs", .error (), .ok "completed"⟩ : UploadEnv).vector_store_id = none ∧
      (upload_document ⟨some "vs", .error (), .ok "completed"⟩ [] 1).1 = [] ∧
      (upload_document ⟨some "vs", .error (), .ok "completed"⟩ [] 1).1.find?
        (fun d => d.id == 1) = none) ∨
    (∃ d, (upload_document ⟨some "vs", .error (), .ok "completed"⟩ [] 1).1.find?
        (fun d' => d'.id == 1) = some d ∧ d.status = "FAILED") :=
  upload_document_failed_status ⟨some "vs", .error (), .ok "completed"⟩ [] 1
    (by intro d hd; simp at hd) (by rfl)

/-! ### `recorder/views.py`, `upload_chunk` numbering (lines 399-401) and
`DocumentService.delete_document` (claim C10) -/

/-- The fields of a `Transcription` row that the chunk-numbering logic
touches. -/
structure UploadChunkRec where
  session : Nat
  chunk_number : Nat
deriving DecidableEq

/-- `Transcription.objects.filter(session=session).order_by('-chunk_number').first()`
then `+ 1`, or `0` when the session has no transcriptions (lines 400-401). -/
def next_chunk_number (db : List UploadChunkRec) (sid : Nat) : Nat :=
  match ((db.filter (fun t => t.session == sid)).map (fun t => t.chunk_number)).max? with
  | none => 0
  | some m => m + 1

/-- The transcription-creating effect of one `upload_chunk` call: append a
row for the session with the next sequential chunk number. -/
def upload_chunk (db : List UploadChunkRec) (sid : Nat) : List UploadChunkRec :=
  db ++ [⟨sid, next_chunk_number db sid⟩]

/-- A sequential run of `upload_chunk` calls starting from an empty
transcription table, in creation order. -/
def runUploads (ss : List Nat) : List UploadChunkRec :=
  ss.foldl upload_chunk []

theorem max?_range_succ (n : Nat) : (List.range (n + 1)).max? = some n := by
  rw [List.max?_eq_some_iff (fun a => le_refl a) (fun a b => max_choice a b)
    (fun a b c => Nat.max_le)]
  constructor
  · exact List.mem_range.mpr (by omega)
  · intro b hb
    exact Nat.lt_succ_iff.mp (List.mem_range.mp hb)

theorem upload_chunk_filter_eq (db : List UploadChunkRec) (sid s : Nat) :
    (upload_chunk db sid).filter (fun t => t.session == s) =
      if sid == s then
        db.filter (fun t => t.session == s) ++ [⟨sid, next_chunk_number db sid⟩]
      else db.filter (fun t => t.session == s) := by
  unfold upload_chunk
  rw [List.filter_append]
  by_cases hs : sid == s
  · rw [if_pos hs]
    congr 1
    simp [hs]
  · rw [if_neg hs]
    have : List.filter (fun t => t.session == s) [(⟨sid, next_chunk_number db sid⟩ :
        UploadChunkRec)] = [] := by
      simp only [List.filter_cons, List.filter_nil]
      rw [if_neg (by simpa using hs)]
    rw [this, List.append_nil]

/-- The numbering invariant: each session's chunk numbers, in creation
order, are exactly `0, 1, 2, ...`. -/
def chunkInv (db : List UploadChunkRec) : Prop :=
  ∀ s, (db.filter (fun t => t.session == s)).map (fun t => t.chunk_number) =
    List.range ((db.filter (fun t => t.session == s)).length)

theorem chunkInv_upload {db : List UploadChunkRec} (h : chunkInv db) (sid : Nat) :
    chunkInv (upload_chunk db sid) := by
  intro s
  rw [upload_chunk_filter_eq]
  by_cases hs : sid == s
  · rw [if_pos hs]
    rw [List.map_append, h s]
    set n := (db.filter (fun t => t.session == s)).length with hn
    have hnext : next_chunk_number db sid = n := by
      unfold next_chunk_number
      have hsid : sid = s := by simpa using hs
      rw [hsid, h s, ← hn]
      cases n with
      | zero => rfl
      | succ m => rw [max?_range_succ]
    simp only [List.map_cons, List.map_nil, hnext]
    rw [List.length_append]
    simp only [List.length_cons, List.length_nil]
    rw [← List.range_succ]
  · rw [if_neg hs]
    exact h s

theorem runUploads_inv (ss : List Nat) : chunkInv (runUploads ss) := by
  have hgen : ∀ (l : List Nat) (db : List UploadChunkRec), chunkInv db →
      chunkInv (l.foldl upload_chunk db) := by
    intro l
    induction l with
    | nil => intro db h; exact h
    | cons a l ih =>
      intro db h
      exact ih _ (chunkInv_upload h a)
  exact hgen ss [] (by intro s; rfl)

theorem runUploads_count (ss : List Nat) (s : Nat) :
    ((runUploads ss).filter (fun t => t.session == s)).length = ss.count s := by
  have hgen : ∀ (l : List Nat) (db : List UploadChunkRec),
      ((l.foldl upload_chunk db).filter (fun t => t.session == s)).length =
        (db.filter (fun t => t.session == s)).length + l.count s := by
    intro l
    induction l with
    | nil => intro db; simp
    | cons a l ih =>
      intro db
      rw [List.foldl_cons, ih, upload_chunk_filter_eq]
      by_cases ha : a == s
      · rw [if_pos ha, List.length_append, List.count_cons]
        simp only [List.length_cons, List.length_nil]
        rw [if_pos ha]
        omega
      · rw [if_neg ha, List.count_cons, if_neg ha]
        omega
  have h0 := hgen ss []
  simpa [runUploads] using h0

/-- C9: `upload_chunk` numbers transcriptions sequentially per session: a
session's first transcription gets chunk number 0, each later upload gets
the session's current maximum plus one, and after any sequential run of
uploads each session's chunk numbers in creation order are exactly
`0, 1, ..., count - 1`. -/
theorem upload_chunk_numbering (ss : List Nat) (sid : Nat) :
    (∀ db : List UploadChunkRec, db.filter (fun t => t.session == sid) = [] →
      next_chunk_number db sid = 0) ∧
    (∀ (db : List UploadChunkRec) (m : Nat),
      ((db.filter (fun t => t.session == sid)).map (fun t => t.chunk_number)).max? = some m →
      next_chunk_number db sid = m + 1) ∧
    ((runUploads ss).filter (fun t => t.session == sid)).map (fun t => t.chunk_number) =
      List.range (ss.count sid) := by
  refine ⟨?_, ?_, ?_⟩
  · intro db h
    unfold next_chunk_number
    rw [h]
    rfl
  · intro db m h
    unfold next_chunk_number
    rw [h]
  · rw [runUploads_inv ss sid, runUploads_count]

/-- C10: `delete_document` returns `False` exactly when the record does not
exist or deleting the local record raises; once the record is deleted it
returns `True` whatever happens to the local file removal or the
OpenAI-side deletion. -/
theorem delete_document_spec (env : DeleteEnv) (store : List DocRow) (docId : Nat) :
    ((delete_document env store docId).2 = false ↔
      (store.find? (fun d => d.id == docId) = none ∨ env.record_delete = .error ())) ∧
    (∀ d, store.find? (fun d' => d'.id == docId) = some d → env.record_delete = .ok () →
      delete_document env store docId = (store.filter (fun d' => !(d'.id == docId)), true)) := by
  obtain ⟨rd, orm, od⟩ := env
  constructor
  · cases hf : store.find? (fun d => d.id == docId) with
    | none =>
      constructor
      · intro _; exact Or.inl rfl
      · intro _
        unfold delete_document
        rw [hf]
    | some d =>
      cases rd with
      | error e =>
        cases e
        constructor
        · intro _; exact Or.inr rfl
        · intro _
          unfold delete_document
          rw [hf]
      | ok u =>
        cases u
        constructor
        · intro hfalse
          exfalso
          unfold delete_document at hfalse
          rw [hf] at hfalse
          simp at hfalse
        · intro hor
          rcases hor with h1 | h1
          · simp at h1
          · simp at h1
  · intro d hfind hok
    cases rd with
    | error e => cases hok
    | ok u =>
      unfold delete_document
      rw [hfind]

/-- Witness for C10: record exists, record deletion succeeds, the local
file removal and the OpenAI deletion both fail, the call still returns
`True`. -/
theorem delete_document_spec_witness :
    ((delete_document ⟨.ok (), .error (), .error ()⟩ [newDocument 3] 3).2 = false ↔
      ((newDocument 3 :: []).find? (fun d => d.id == 3) = none ∨
        (Except.ok () : Except Unit Unit) = .error ())) ∧
    (∀ d, (newDocument 3 :: []).find? (fun d' => d'.id == 3) = some d →
      (Except.ok () : Except Unit Unit) = .ok () →
      delete_document ⟨.ok (), .error (), .error ()⟩ [newDocument 3] 3 =
        ((newDocument 3 :: []).filter (fun d' => !(d'.id == 3)), true)) := by
  exact delete_document_spec ⟨.ok (), .error (), .error ()⟩ [newDocument 3] 3
